import Mathlib

/-!
Verification of the `kbdgen` CLI dispatcher (`src/pysrc/kbdgen/cli.py`)
against its natural-language specification.

The embedding models:
* `parse_args` — the argparse-declared command-line surface, as a pure
  tokenizer over the argument list (space-separated option values, the
  argparse conventions used by the declarations in the source);
* `run_cli` — the dispatcher, as a function from the command line and an
  oracle for the external collaborators (the project parser in
  `kbdgen.base` and the generator module `kbdgen.gen`, neither of which is
  under `src/`) to a trace of observable effects and an outcome;
* the override overlay (`-K path=value` handling), modelled from the spec
  since the `Parser` consuming `cfg_pairs` lives outside `src/`.
-/

deriving instance DecidableEq for Except

namespace Kbdgen

/-- The generator registry (module `kbdgen.gen`, not under `src/`), abstract:
`keys` backs `gen.keys()` (used for the `--target` choices and the error
message) and `found` tells whether `gen.get(target)` returns a constructor.
The module is outside `src/`, so no consistency between the two is assumed. -/
structure Registry where
  keys : List String
  found : String → Bool

/-- `logging_type` from `parse_args` (cli.py:15-27): the fixed mapping of level
names to numeric values; an unknown name is an argument-type error. -/
def logging_type : String → Option Nat
  | "critical" => some 50
  | "error" => some 40
  | "warning" => some 30
  | "info" => some 20
  | "debug" => some 10
  | "trace" => some 5
  | _ => none

/-- The parsed argument namespace produced by `parse_args` (cli.py:29-96),
with argparse defaults resolved (`logging` 20, `kbd_branch` "main",
`output` ".", `flags` `[]`; `cfg_pairs` has no default, hence `Option`).
`local` and `global` are Lean keywords, so those fields are `local_build`
and `global_file`. -/
structure Args where
  logging : Nat := 20
  local_build : Bool := false
  legacy : Bool := false
  cfg_pairs : Option (List String) := none
  dry_run : Bool := false
  release : Bool := false
  global_file : Option String := none
  kbd_repo : Option String := none
  kbd_branch : String := "main"
  divvunspell_repo : Option String := none
  divvunspell_branch : Option String := none
  target : String
  output : String := "."
  project : String
  flags : List String := []
  layout : Option String := none
  github_username : Option String := none
  github_token : Option String := none
  command : Option String := none
  ci : Bool := false
deriving DecidableEq, Repr

/-- Accumulator for the single left-to-right pass over the token list:
every field still optional, defaults applied afterwards. -/
structure PreArgs where
  logging : Option Nat := none
  local_build : Bool := false
  legacy : Bool := false
  cfg_pairs : Option (List String) := none
  dry_run : Bool := false
  release : Bool := false
  global_file : Option String := none
  kbd_repo : Option String := none
  kbd_branch : Option String := none
  divvunspell_repo : Option String := none
  divvunspell_branch : Option String := none
  target : Option String := none
  output : Option String := none
  project : Option String := none
  flags : Option (List String) := none
  layout : Option String := none
  github_username : Option String := none
  github_token : Option String := none
  command : Option String := none
  ci : Bool := false
deriving DecidableEq, Repr

/-- How `parse_args` terminates the process early: a usage error
(`SystemExit` from argparse) or the `--version` action. -/
inductive ParseExit where
  | usage
  | version
deriving DecidableEq, Repr

/-- Whether argparse treats a token as an option: it starts with `-`.
(Written over the character list so that concrete instances reduce in the
kernel.) -/
def isOptionTok (s : String) : Bool :=
  match s.data with
  | [] => false
  | c :: _ => c = '-'

/-- argparse `nargs="*"` consumption: take following tokens up to the first
one that looks like an option (starts with `-`). -/
def takeValues : List String → List String × List String
  | [] => ([], [])
  | x :: xs =>
    if isOptionTok x then ([], x :: xs)
    else
      let r := takeValues xs
      (x :: r.1, r.2)

theorem takeValues_length_le (l : List String) : (takeValues l).2.length ≤ l.length := by
  induction l with
  | nil => simp [takeValues]
  | cons x xs ih =>
    simp only [takeValues]
    split
    · simp
    · simpa using Nat.le_succ_of_le ih

/-- What one leading token means to the argparse declarations in
`parse_args` (cli.py:29-96): the `--version` action, the `--logging` option
(value validated by `logging_type`), a `store_true` flag, an `nargs="*"`
option, a single-value option (each with its setter on the accumulator), an
undeclared option, or a positional. -/
inductive TokAction where
  | version
  | loggingOpt
  | storeTrue (set : PreArgs → PreArgs)
  | starOpt (set : PreArgs → List String → PreArgs)
  | valueOpt (set : PreArgs → String → PreArgs)
  | badOpt
  | positional

/-- The declaration table of `parse_args` (cli.py:29-96), one test per
`add_argument` call, in source order. -/
def classify (t : String) : TokAction :=
  if t = "--version" then .version
  else if t = "--logging" then .loggingOpt
  else if t = "--local" then .storeTrue (fun a => { a with local_build := true })
  else if t = "--legacy" then .storeTrue (fun a => { a with legacy := true })
  else if t = "-K" ∨ t = "--key" then
    .starOpt (fun a vs => { a with cfg_pairs := some vs })
  else if t = "-D" ∨ t = "--dry-run" then
    .storeTrue (fun a => { a with dry_run := true })
  else if t = "-R" ∨ t = "--release" then
    .storeTrue (fun a => { a with release := true })
  else if t = "-G" ∨ t = "--global" then
    .valueOpt (fun a v => { a with global_file := some v })
  else if t = "-r" ∨ t = "--kbd-repo" then
    .valueOpt (fun a v => { a with kbd_repo := some v })
  else if t = "-b" ∨ t = "--kbd-branch" then
    .valueOpt (fun a v => { a with kbd_branch := some v })
  else if t = "--divvunspell-repo" then
    .valueOpt (fun a v => { a with divvunspell_repo := some v })
  else if t = "--divvunspell-branch" then
    .valueOpt (fun a v => { a with divvunspell_branch := some v })
  else if t = "-t" ∨ t = "--target" then
    .valueOpt (fun a v => { a with target := some v })
  else if t = "-o" ∨ t = "--output" then
    .valueOpt (fun a v => { a with output := some v })
  else if t = "-f" ∨ t = "--flag" then
    .starOpt (fun a vs => { a with flags := some vs })
  else if t = "-l" ∨ t = "--layout" then
    .valueOpt (fun a v => { a with layout := some v })
  else if t = "--github-username" then
    .valueOpt (fun a v => { a with github_username := some v })
  else if t = "--github-token" then
    .valueOpt (fun a v => { a with github_token := some v })
  else if t = "-c" ∨ t = "--command" then
    .valueOpt (fun a v => { a with command := some v })
  else if t = "--ci" then .storeTrue (fun a => { a with ci := true })
  else if isOptionTok t then .badOpt
  else .positional

/-- The pass over the raw token list. `store_true` flags set a boolean;
value options consume the next token (missing value: usage error);
`nargs="*"` options consume the following non-option tokens; the sole
positional fills `project` (a second one is a usage error); an undeclared
option is a usage error; `--logging` additionally validates its value. -/
def parseLoop (a : PreArgs) : List String → Except ParseExit PreArgs
  | [] => .ok a
  | t :: rest =>
    match classify t with
    | .version => .error .version
    | .loggingOpt =>
      match rest with
      | v :: rest' =>
        match logging_type v with
        | some n => parseLoop { a with logging := some n } rest'
        | none => .error .usage
      | [] => .error .usage
    | .storeTrue f => parseLoop (f a) rest
    | .starOpt f =>
      let r := takeValues rest
      parseLoop (f a r.1) r.2
    | .valueOpt f =>
      match rest with
      | v :: rest' => parseLoop (f a v) rest'
      | [] => .error .usage
    | .badOpt => .error .usage
    | .positional =>
      match a.project with
      | none => parseLoop { a with project := some t } rest
      | some _ => .error .usage
termination_by l => l.length
decreasing_by
  all_goals simp_wf
  all_goals first
    | omega
    | exact Nat.lt_succ_of_le (takeValues_length_le _)

/-- End-of-parse checks and defaults: `-t` (`--target`) is required with
`choices=gen.keys()`, the positional `project` is required; defaults
`logging=20`, `kbd_branch="main"`, `output="."`, `flags=[]` are applied;
`cfg_pairs` stays `none` when `-K` never appeared. -/
def finalize (reg : Registry) (a : PreArgs) : Except ParseExit Args :=
  match a.target, a.project with
  | some t, some prj =>
    if reg.keys.contains t then
      .ok {
        logging := a.logging.getD 20
        local_build := a.local_build
        legacy := a.legacy
        cfg_pairs := a.cfg_pairs
        dry_run := a.dry_run
        release := a.release
        global_file := a.global_file
        kbd_repo := a.kbd_repo
        kbd_branch := a.kbd_branch.getD "main"
        divvunspell_repo := a.divvunspell_repo
        divvunspell_branch := a.divvunspell_branch
        target := t
        output := a.output.getD "."
        project := prj
        flags := a.flags.getD []
        layout := a.layout
        github_username := a.github_username
        github_token := a.github_token
        command := a.command
        ci := a.ci }
    else .error .usage
  | _, _ => .error .usage

/-- `parse_args` (cli.py:14-96): tokenize the command line, then apply the
required/choices checks and defaults. -/
def parse_args (reg : Registry) (cli : List String) : Except ParseExit Args :=
  match parseLoop {} cli with
  | .ok a => finalize reg a
  | .error e => .error e

/-- Observable effects of one `run_cli` invocation, in order. `setLogLevel`
would be the effect of applying the parsed `--logging` level to the logger;
the corresponding statement in `run_cli` is commented out in the source
(cli.py:128), so the model can state that it never occurs. -/
inductive Event where
  | diagnostics
  | setLogLevel (n : Nat)
  | enableVerboseHttp
  | parseProject (path : String) (overrides : Option (List String))
  | logCritical (msg : String)
  | logError (msg : String)
  | printStderr (msg : String)
  | constructGenerator (target : String) (opts : Args)
  | generate (outputDir : String)
deriving DecidableEq, Repr

/-- How a `run_cli` call ends: falling off the end (Python returns `None`),
`return 1`, an exception propagating out of the function uncaught, or the
argument parser terminating the process (usage error / `--version`). -/
inductive RunResult where
  | retNone
  | ret (code : Nat)
  | raised (msg : String)
  | usageExit
  | versionExit
deriving DecidableEq, Repr

/-- Outcome of the external `Parser().parse(args.project, args.cfg_pairs)`
call (module `kbdgen.base`, not under `src/`): a project, `None`, a YAML
`ScannerError` (with its `problem` and `problem_mark`), a `UserException`
(with its `args` tuple), or any other exception. -/
inductive ParseOutcome where
  | ok
  | noneResult
  | scannerError (problem mark : String)
  | userExc (eargs : List String)
  | otherExc (eargs : List String)
deriving DecidableEq, Repr

/-- Outcome of the external `x.generate(x.output_dir)` call: success, a
`KbdgenException` (caught and logged), or any other exception (uncaught). -/
inductive GenOutcome where
  | ok
  | kbdgenExc (msg : String)
  | otherExc (msg : String)
deriving DecidableEq, Repr

/-- The behaviour of the two external collaborator calls made by one
invocation. -/
structure Oracle where
  parseResult : ParseOutcome
  genResult : GenOutcome

/-- Python `str.strip()`: drop whitespace from both ends. -/
def pyStrip (s : String) : String :=
  String.mk (((s.data.dropWhile Char.isWhitespace).reverse.dropWhile Char.isWhitespace).reverse)

/-- The message logged for a YAML `ScannerError` (cli.py:140-143):
`"Error parsing project:\n%s %s" % (str(e.problem).strip(), str(e.problem_mark).strip())`. -/
def scannerMsg (problem mark : String) : String :=
  "Error parsing project:\n" ++ pyStrip problem ++ " " ++ pyStrip mark

/-- The message of the exception raised when the loader returns an empty
project (cli.py:138). -/
def emptyProjectMsg : String := "Project parser returned empty project."

/-- The three bug-report instructions logged for a non-`UserException`
failure of the load phase (cli.py:153-159). -/
def bugReportMsgs : List String :=
  ["You should not be seeing this error. Please report this as a bug.",
   "To receive a more detailed stacktrace, add `--logging trace` to your build command and submit it with your bug report.",
   "URL: <https://github.com/divvun/kbdgen/issues/>"]

/-- First stderr line for a target missing from the registry (cli.py:165). -/
def invalidTargetMsg (target : String) : String :=
  "Error: '" ++ target ++ "' is not a valid target."

/-- Second stderr line for a target missing from the registry (cli.py:166). -/
def validTargetsMsg (keys : List String) : String :=
  "Valid targets: " ++ String.intercalate ", " keys

/-- The generic `except Exception` handler (cli.py:145-160): each element of
`e.args` is logged at critical severity; a `UserException` short-circuits,
anything else additionally logs the bug-report instructions; either way the
function returns 1. -/
def excHandlerEvents (eargs : List String) (isUser : Bool) : List Event :=
  eargs.map Event.logCritical ++
    (if isUser then [] else bugReportMsgs.map Event.logCritical)

/-- Modelled from the spec: the generator instance (module `kbdgen.gen`, not
under `src/`) exposes an `output_dir` property, the configured output
directory from the merged options (`--output`, default the current working
directory). `run_cli` passes it to `generate`. -/
def generatorOutputDir (args : Args) : String := args.output

/-- The events up to and including the `Parser().parse` call (cli.py:127-136):
`print_diagnostics()` after argument parsing, the verbose-HTTP switch when
the parsed level is 5 (trace), then the load. -/
def loadEvents (args : Args) : List Event :=
  Event.diagnostics ::
    (if args.logging = 5 then [Event.enableVerboseHttp] else []) ++
      [Event.parseProject args.project args.cfg_pairs]

/-- The events and outcome of `run_cli` after the `Parser().parse` call
returns or raises (cli.py:136-175): the try-block handlers, the registry
lookup, generator construction and the `generate` call with its handler. -/
def dispatch (reg : Registry) (o : Oracle) (args : Args) :
    List Event × RunResult :=
  match o.parseResult with
  | .scannerError problem mark =>
      ([Event.logCritical (scannerMsg problem mark)], .ret 1)
  | .noneResult => (excHandlerEvents [emptyProjectMsg] false, .ret 1)
  | .userExc eargs => (excHandlerEvents eargs true, .ret 1)
  | .otherExc eargs => (excHandlerEvents eargs false, .ret 1)
  | .ok =>
    if reg.found args.target then
      let ev := [Event.constructGenerator args.target args,
                 Event.generate (generatorOutputDir args)]
      match o.genResult with
      | .ok => (ev, .retNone)
      | .kbdgenExc m => (ev ++ [Event.logError m], .retNone)
      | .otherExc m => (ev, .raised m)
    else
      ([Event.printStderr (invalidTargetMsg args.target),
        Event.printStderr (validTargetsMsg reg.keys)], .ret 1)

/-- `run_cli` (cli.py:126-175) as a trace of observable effects plus an
outcome, given the command line and the collaborator oracle. -/
def run_cli (reg : Registry) (o : Oracle) (cli : List String) :
    List Event × RunResult :=
  match parse_args reg cli with
  | .error .usage => ([], .usageExit)
  | .error .version => ([], .versionExit)
  | .ok args =>
    (loadEvents args ++ (dispatch reg o args).1, (dispatch reg o args).2)

/-- Modelled from the spec: the process entry point (not under `src/`) exits
with `run_cli`'s return value; in Python `sys.exit(None)` is exit code 0, an
integer is itself, an uncaught exception has no orderly exit code here, and
argparse exits with 2 on a usage error and 0 for `--version`. -/
def exitCode : RunResult → Option Nat
  | .retNone => some 0
  | .ret n => some n
  | .raised _ => none
  | .usageExit => some 2
  | .versionExit => some 0

/-- Whether an event is a generator construction. -/
def isConstructEv : Event → Bool
  | .constructGenerator _ _ => true
  | _ => false

/-- Whether an event is a `generate` invocation. -/
def isGenerateEv : Event → Bool
  | .generate _ => true
  | _ => false

theorem run_cli_ok {reg : Registry} {o : Oracle} {cli : List String}
    {args : Args} (h : parse_args reg cli = .ok args) :
    run_cli reg o cli =
      (loadEvents args ++ (dispatch reg o args).1, (dispatch reg o args).2) := by
  simp [run_cli, h]

theorem run_cli_usage {reg : Registry} {o : Oracle} {cli : List String}
    (h : parse_args reg cli = .error .usage) :
    run_cli reg o cli = ([], .usageExit) := by
  simp [run_cli, h]

/-! Concrete fixtures for witnesses and counterexamples. -/

/-- A registry with one target, `win`, whose lookup succeeds. -/
def regW : Registry := { keys := ["win"], found := fun s => s == "win" }

/-- A registry listing `win` among the argparse choices while `gen.get`
still yields nothing for it (the defensive-check scenario). -/
def regMissing : Registry := { keys := ["win"], found := fun _ => false }

/-- Oracle for a fully successful run. -/
def oracleOk : Oracle := { parseResult := .ok, genResult := .ok }

/-- A command line with `--dry-run` set. -/
def cliDry : List String := ["-D", "-t", "win", "proj.kbdgen"]

/-- The namespace `parse_args` produces for `cliDry`. -/
def argsDry : Args := { target := "win", project := "proj.kbdgen", dry_run := true }

theorem parse_args_cliDry : parse_args regW cliDry = .ok argsDry := by
  simp only [parse_args, parseLoop, classify, takeValues, isOptionTok,
    finalize, regW, cliDry, argsDry, logging_type]
  decide

/-- C1, as stated, is false: with `--dry-run` set and a valid bundle and
target, `run_cli` still invokes `generate` — nothing in `run_cli`
(cli.py:126-175) consults `args.dry_run` after parsing. -/
theorem C1_counterexample :
    (parse_args regW cliDry).toOption.map Args.dry_run = some true ∧
      Event.generate "." ∈ (run_cli regW oracleOk cliDry).1 := by
  refine ⟨by rw [parse_args_cliDry]; rfl, ?_⟩
  rw [run_cli_ok parse_args_cliDry]
  decide

/-- C1 amended: when `--dry-run` is set and the project loads with a valid
target, `run_cli` does not stop after loading: it still constructs the
generator (receiving `dry_run := true` among its options, for the generator
itself to honor) and invokes `generate`. -/
theorem C1_amended_thm (reg : Registry) (o : Oracle) (cli : List String)
    (args : Args) (h : parse_args reg cli = .ok args)
    (hdry : args.dry_run = true) (hp : o.parseResult = .ok)
    (hf : reg.found args.target = true) :
    Event.constructGenerator args.target args ∈ (run_cli reg o cli).1 ∧
      args.dry_run = true ∧
      Event.generate (generatorOutputDir args) ∈ (run_cli reg o cli).1 := by
  rw [run_cli_ok h]
  refine ⟨?_, hdry, ?_⟩ <;>
    · simp only [dispatch, hp, hf, if_true]
      cases hg : o.genResult <;> simp

/-- Witness: `C1_amended_thm` applied to the concrete dry-run invocation. -/
theorem C1_amended_witness :
    Event.constructGenerator argsDry.target argsDry ∈
        (run_cli regW oracleOk cliDry).1 ∧
      argsDry.dry_run = true ∧
      Event.generate (generatorOutputDir argsDry) ∈
        (run_cli regW oracleOk cliDry).1 :=
  C1_amended_thm regW oracleOk cliDry argsDry parse_args_cliDry
    (by decide) (by decide) (by decide)

theorem not_mem_dispatch_diagnostics (reg : Registry) (o : Oracle)
    (args : Args) : Event.diagnostics ∉ (dispatch reg o args).1 := by
  rcases o with ⟨pr, gr⟩
  cases pr <;> cases gr <;>
    simp [dispatch, excHandlerEvents, bugReportMsgs] <;> split <;> simp

theorem not_mem_dispatch_verbose (reg : Registry) (o : Oracle)
    (args : Args) : Event.enableVerboseHttp ∉ (dispatch reg o args).1 := by
  rcases o with ⟨pr, gr⟩
  cases pr <;> cases gr <;>
    simp [dispatch, excHandlerEvents, bugReportMsgs] <;> split <;> simp

theorem not_mem_dispatch_setLogLevel (reg : Registry) (o : Oracle)
    (args : Args) (n : Nat) : Event.setLogLevel n ∉ (dispatch reg o args).1 := by
  rcases o with ⟨pr, gr⟩
  cases pr <;> cases gr <;>
    simp [dispatch, excHandlerEvents, bugReportMsgs] <;> split <;> simp

theorem parse_args_nil : parse_args regW [] = .error .usage := by
  simp only [parse_args, parseLoop, finalize]

/-- C2, as stated, is false: `print_diagnostics()` (cli.py:130) runs after
`parse_args` (cli.py:127), so an invocation whose argument list fails
schema validation (here: an empty one, missing `-t` and the positional)
terminates without any diagnostic dump. -/
theorem C2_counterexample :
    run_cli regW oracleOk [] = ([], .usageExit) ∧
      Event.diagnostics ∉ (run_cli regW oracleOk []).1 := by
  have h := run_cli_usage (o := oracleOk) parse_args_nil
  exact ⟨h, by rw [h]; simp⟩

/-- C2 amended: the diagnostic dump runs exactly once, first, in every
invocation whose arguments parse, before any loading work; when argument
parsing fails the process exits without any diagnostics. -/
theorem C2_amended_thm (reg : Registry) (o : Oracle) (cli : List String) :
    (∀ args, parse_args reg cli = .ok args →
        (run_cli reg o cli).1.head? = some .diagnostics ∧
          (run_cli reg o cli).1.count .diagnostics = 1) ∧
      ∀ e, parse_args reg cli = .error e → (run_cli reg o cli).1 = [] := by
  constructor
  · intro args h
    rw [run_cli_ok h]
    constructor
    · simp [loadEvents]
    · have hd := not_mem_dispatch_diagnostics reg o args
      simp [loadEvents, List.count_append, List.count_cons,
        List.count_eq_zero.mpr hd]
      split <;> simp
  · intro e h
    cases e <;> simp [run_cli, h]

/-- Witness: `C2_amended_thm` on a parsing invocation and on an empty
command line. -/
theorem C2_amended_witness :
    (run_cli regW oracleOk cliDry).1.head? = some .diagnostics ∧
      (run_cli regW oracleOk cliDry).1.count .diagnostics = 1 ∧
      (run_cli regW oracleOk []).1 = [] := by
  obtain ⟨h1, _⟩ := C2_amended_thm regW oracleOk cliDry
  obtain ⟨a, b⟩ := h1 argsDry parse_args_cliDry
  obtain ⟨_, h2⟩ := C2_amended_thm regW oracleOk []
  exact ⟨a, b, h2 .usage parse_args_nil⟩

/-! Fixtures for a plain (no `--dry-run`) invocation. -/

/-- A plain valid command line. -/
def cliOk : List String := ["-t", "win", "proj.kbdgen"]

/-- The namespace `parse_args` produces for `cliOk`. -/
def argsOk : Args := { target := "win", project := "proj.kbdgen" }

theorem parse_args_cliOk : parse_args regW cliOk = .ok argsOk := by
  simp only [parse_args, parseLoop, classify, takeValues, isOptionTok,
    finalize, regW, cliOk, argsOk, logging_type]
  decide

/-- Oracle for a run whose `generate` raises a `KbdgenException`. -/
def oracleKbd : Oracle := { parseResult := .ok, genResult := .kbdgenExc "boom" }

/-- Oracle for a run whose `generate` raises a non-`KbdgenException`. -/
def oracleOther : Oracle := { parseResult := .ok, genResult := .otherExc "bad" }

/-- C3, as stated, is false: when `generate` raises a `KbdgenException`,
`run_cli` logs it (cli.py:174-175) and then falls off the end of the
function, returning `None` — exit code 0, not 1. -/
theorem C3_counterexample :
    (run_cli regW oracleKbd cliOk).2 = .retNone ∧
      exitCode (run_cli regW oracleKbd cliOk).2 = some 0 := by
  rw [run_cli_ok parse_args_cliOk]
  decide

/-- C3 amended: a `KbdgenException` from `generate` is logged at `error`
severity and not re-raised, and `run_cli` then returns `None` (exit code 0,
not 1); any other exception from `generate` propagates uncaught, with no
verbose-trace diagnostic logged (those instructions accompany only
load-phase failures). -/
theorem C3_amended_thm (reg : Registry) (o : Oracle) (cli : List String)
    (args : Args) (m : String) (h : parse_args reg cli = .ok args)
    (hp : o.parseResult = .ok) (hf : reg.found args.target = true) :
    (o.genResult = .kbdgenExc m →
        (run_cli reg o cli).2 = .retNone ∧
          Event.logError m ∈ (run_cli reg o cli).1) ∧
      (o.genResult = .otherExc m →
        (run_cli reg o cli).2 = .raised m ∧
          ∀ s, Event.logCritical s ∉ (run_cli reg o cli).1) := by
  rw [run_cli_ok h]
  constructor
  · intro hg
    simp [dispatch, hp, hf, hg]
  · intro hg
    refine ⟨by simp [dispatch, hp, hf, hg], fun s => ?_⟩
    simp [dispatch, hp, hf, hg, loadEvents]

/-- Witness: `C3_amended_thm` on a `KbdgenException`-raising run and a
defect-raising run. -/
theorem C3_amended_witness :
    (run_cli regW oracleKbd cliOk).2 = .retNone ∧
      Event.logError "boom" ∈ (run_cli regW oracleKbd cliOk).1 ∧
      (run_cli regW oracleOther cliOk).2 = .raised "bad" := by
  obtain ⟨h1, _⟩ :=
    C3_amended_thm regW oracleKbd cliOk argsOk "boom" parse_args_cliOk rfl
      (by decide)
  obtain ⟨a, b⟩ := h1 rfl
  obtain ⟨_, h2⟩ :=
    C3_amended_thm regW oracleOther cliOk argsOk "bad" parse_args_cliOk rfl
      (by decide)
  exact ⟨a, b, (h2 rfl).1⟩

/-- Oracle for a loader that returns `None`. -/
def oracleNone : Oracle := { parseResult := .noneResult, genResult := .ok }

/-- Oracle for a loader raising a YAML `ScannerError`. -/
def oracleScan : Oracle :=
  { parseResult := .scannerError "mapping values are not allowed here"
      "  in \"project.yaml\", line 3, column 7", genResult := .ok }

/-- C4: a `None` project from the loader is turned into a generic exception
(cli.py:137-138), handled as an internal error: its message is logged at
critical severity together with the bug-report instructions (among them the
re-run-with-trace-logging one), `run_cli` returns 1, and no generator is
ever constructed. -/
theorem C4_thm (reg : Registry) (o : Oracle) (cli : List String)
    (args : Args) (h : parse_args reg cli = .ok args)
    (hp : o.parseResult = .noneResult) :
    (run_cli reg o cli).2 = .ret 1 ∧
      exitCode (run_cli reg o cli).2 = some 1 ∧
      Event.logCritical emptyProjectMsg ∈ (run_cli reg o cli).1 ∧
      (∀ m ∈ bugReportMsgs, Event.logCritical m ∈ (run_cli reg o cli).1) ∧
      (∀ t a, Event.constructGenerator t a ∉ (run_cli reg o cli).1) ∧
      ∀ d, Event.generate d ∉ (run_cli reg o cli).1 := by
  rw [run_cli_ok h]
  refine ⟨by simp [dispatch, hp], by simp [dispatch, hp, exitCode], ?_, ?_, ?_, ?_⟩ <;>
    simp [dispatch, hp, excHandlerEvents, loadEvents, bugReportMsgs]

/-- Witness: `C4_thm` on a concrete empty-loader run. -/
theorem C4_witness :
    (run_cli regW oracleNone cliOk).2 = .ret 1 ∧
      exitCode (run_cli regW oracleNone cliOk).2 = some 1 ∧
      Event.logCritical emptyProjectMsg ∈ (run_cli regW oracleNone cliOk).1 ∧
      (∀ m ∈ bugReportMsgs,
        Event.logCritical m ∈ (run_cli regW oracleNone cliOk).1) ∧
      (∀ t a, Event.constructGenerator t a ∉ (run_cli regW oracleNone cliOk).1) ∧
      ∀ d, Event.generate d ∉ (run_cli regW oracleNone cliOk).1 :=
  C4_thm regW oracleNone cliOk argsOk parse_args_cliOk rfl

/-- C5: a YAML `ScannerError` from the loader is reported as a parse error
(cli.py:139-144): the logged message embeds the stripped location marker
(`problem_mark`), `run_cli` returns 1, and nothing propagates out of the
function (no stack trace). -/
theorem C5_thm (reg : Registry) (o : Oracle) (cli : List String)
    (args : Args) (problem mark : String) (h : parse_args reg cli = .ok args)
    (hp : o.parseResult = .scannerError problem mark) :
    (run_cli reg o cli).2 = .ret 1 ∧
      exitCode (run_cli reg o cli).2 = some 1 ∧
      Event.logCritical (scannerMsg problem mark) ∈ (run_cli reg o cli).1 ∧
      (∃ pre, scannerMsg problem mark = pre ++ pyStrip mark) ∧
      ∀ m, (run_cli reg o cli).2 ≠ .raised m := by
  rw [run_cli_ok h]
  refine ⟨by simp [dispatch, hp], by simp [dispatch, hp, exitCode],
    by simp [dispatch, hp, loadEvents],
    ⟨"Error parsing project:\n" ++ pyStrip problem ++ " ", rfl⟩,
    by simp [dispatch, hp]⟩

/-- Witness: `C5_thm` on a concrete malformed bundle. -/
theorem C5_witness :
    (run_cli regW oracleScan cliOk).2 = .ret 1 ∧
      exitCode (run_cli regW oracleScan cliOk).2 = some 1 ∧
      Event.logCritical
          (scannerMsg "mapping values are not allowed here"
            "  in \"project.yaml\", line 3, column 7") ∈
        (run_cli regW oracleScan cliOk).1 ∧
      (∃ pre,
        scannerMsg "mapping values are not allowed here"
            "  in \"project.yaml\", line 3, column 7" =
          pre ++ pyStrip "  in \"project.yaml\", line 3, column 7") ∧
      ∀ m, (run_cli regW oracleScan cliOk).2 ≠ .raised m :=
  C5_thm regW oracleScan cliOk argsOk "mapping values are not allowed here"
    "  in \"project.yaml\", line 3, column 7" parse_args_cliOk rfl

/-- C6: when `gen.get(args.target)` yields nothing, `run_cli` reports the
invalid target and the list of registry keys on stderr (cli.py:164-167),
returns 1, and constructs no generator and invokes no `generate`. -/
theorem C6_thm (reg : Registry) (o : Oracle) (cli : List String)
    (args : Args) (h : parse_args reg cli = .ok args)
    (hp : o.parseResult = .ok) (hf : reg.found args.target = false) :
    (run_cli reg o cli).2 = .ret 1 ∧
      exitCode (run_cli reg o cli).2 = some 1 ∧
      Event.printStderr (invalidTargetMsg args.target) ∈ (run_cli reg o cli).1 ∧
      Event.printStderr (validTargetsMsg reg.keys) ∈ (run_cli reg o cli).1 ∧
      (∀ t a, Event.constructGenerator t a ∉ (run_cli reg o cli).1) ∧
      ∀ d, Event.generate d ∉ (run_cli reg o cli).1 := by
  rw [run_cli_ok h]
  refine ⟨by simp [dispatch, hp, hf], by simp [dispatch, hp, hf, exitCode],
    ?_, ?_, ?_, ?_⟩ <;> simp [dispatch, hp, hf, loadEvents]

theorem parse_args_cliOk_missing : parse_args regMissing cliOk = .ok argsOk := by
  simp only [parse_args, parseLoop, classify, takeValues, isOptionTok,
    finalize, regMissing, cliOk, argsOk, logging_type]
  decide

/-- Witness: `C6_thm` on a registry whose `keys` list `win` (so argparse
accepts it) while `get` finds no constructor for it. -/
theorem C6_witness :
    (run_cli regMissing oracleOk cliOk).2 = .ret 1 ∧
      exitCode (run_cli regMissing oracleOk cliOk).2 = some 1 ∧
      Event.printStderr (invalidTargetMsg argsOk.target) ∈
        (run_cli regMissing oracleOk cliOk).1 ∧
      Event.printStderr (validTargetsMsg regMissing.keys) ∈
        (run_cli regMissing oracleOk cliOk).1 ∧
      (∀ t a,
        Event.constructGenerator t a ∉ (run_cli regMissing oracleOk cliOk).1) ∧
      ∀ d, Event.generate d ∉ (run_cli regMissing oracleOk cliOk).1 :=
  C6_thm regMissing oracleOk cliOk argsOk parse_args_cliOk_missing rfl rfl

theorem countP_logCritical_construct (l : List String) :
    List.countP (isConstructEv ∘ Event.logCritical) l = 0 :=
  List.countP_eq_zero.mpr (by intro a _; simp [isConstructEv])

theorem countP_logCritical_generate (l : List String) :
    List.countP (isGenerateEv ∘ Event.logCritical) l = 0 :=
  List.countP_eq_zero.mpr (by intro a _; simp [isGenerateEv])

theorem countP_construct_dispatch_le (reg : Registry) (o : Oracle)
    (args : Args) : (dispatch reg o args).1.countP isConstructEv ≤ 1 := by
  rcases o with ⟨pr, gr⟩
  cases pr <;> cases gr <;>
    simp [dispatch, excHandlerEvents, bugReportMsgs, isConstructEv,
      List.countP_append, List.countP_cons, countP_logCritical_construct] <;>
    split <;>
    simp [List.countP_cons, isConstructEv]

theorem countP_generate_dispatch_le (reg : Registry) (o : Oracle)
    (args : Args) : (dispatch reg o args).1.countP isGenerateEv ≤ 1 := by
  rcases o with ⟨pr, gr⟩
  cases pr <;> cases gr <;>
    simp [dispatch, excHandlerEvents, bugReportMsgs, isGenerateEv,
      List.countP_append, List.countP_cons, countP_logCritical_generate] <;>
    split <;>
    simp [List.countP_cons, isGenerateEv]

/-- C7: in every invocation at most one generator is constructed and
`generate` is invoked at most once; a fully successful run ends with
`run_cli` returning `None` (process exit code 0), having invoked `generate`
exactly once, with the generator's configured output directory. -/
theorem C7_thm (reg : Registry) (o : Oracle) (cli : List String) :
    ((run_cli reg o cli).1.countP isConstructEv ≤ 1 ∧
        (run_cli reg o cli).1.countP isGenerateEv ≤ 1) ∧
      ∀ args, parse_args reg cli = .ok args → o.parseResult = .ok →
        reg.found args.target = true → o.genResult = .ok →
          run_cli reg o cli =
              (loadEvents args ++
                [Event.constructGenerator args.target args,
                  Event.generate (generatorOutputDir args)], .retNone) ∧
            exitCode (run_cli reg o cli).2 = some 0 ∧
            (run_cli reg o cli).1.countP isGenerateEv = 1 := by
  have hload : ∀ args : Args, (loadEvents args).countP isConstructEv = 0 ∧
      (loadEvents args).countP isGenerateEv = 0 := by
    intro args
    constructor <;> simp [loadEvents, List.countP_cons, List.countP_append,
      isConstructEv, isGenerateEv]
  constructor
  · rcases hpa : parse_args reg cli with e | args
    · cases e <;> simp [run_cli, hpa]
    · rw [run_cli_ok hpa]
      simp only [List.countP_append, (hload args).1, (hload args).2, Nat.zero_add]
      exact ⟨countP_construct_dispatch_le reg o args,
        countP_generate_dispatch_le reg o args⟩
  · intro args h hp hf hg
    have hrun := run_cli_ok (o := o) h
    rw [hrun]
    refine ⟨by simp [dispatch, hp, hf, hg],
      by simp [dispatch, hp, hf, hg, exitCode], ?_⟩
    simp [dispatch, hp, hf, hg, List.countP_append, (hload args).2,
      List.countP_cons, isGenerateEv]

/-- Witness: `C7_thm` on the fully successful concrete run. -/
theorem C7_witness :
    run_cli regW oracleOk cliOk =
        (loadEvents argsOk ++
          [Event.constructGenerator argsOk.target argsOk,
            Event.generate (generatorOutputDir argsOk)], .retNone) ∧
      exitCode (run_cli regW oracleOk cliOk).2 = some 0 ∧
      (run_cli regW oracleOk cliOk).1.countP isGenerateEv = 1 :=
  (C7_thm regW oracleOk cliOk).2 argsOk parse_args_cliOk rfl (by decide) rfl

/-- C10: the parsed `--logging` level is never written into the logger's
configuration (cli.py:128 is commented out); its only observable effect in
`run_cli` is that level 5 (trace) switches on verbose HTTP-connection
logging immediately after the diagnostics and before the project is loaded
(cli.py:132-133), while any other level changes nothing. -/
theorem C10_thm (reg : Registry) (o : Oracle) (cli : List String) :
    (∀ n, Event.setLogLevel n ∉ (run_cli reg o cli).1) ∧
      ∀ args, parse_args reg cli = .ok args →
        (args.logging = 5 →
          (run_cli reg o cli).1.take 3 =
            [.diagnostics, .enableVerboseHttp,
              .parseProject args.project args.cfg_pairs]) ∧
        (args.logging ≠ 5 →
          Event.enableVerboseHttp ∉ (run_cli reg o cli).1) := by
  constructor
  · intro n
    rcases hpa : parse_args reg cli with e | args
    · cases e <;> simp [run_cli, hpa]
    · rw [run_cli_ok hpa]
      have hd := not_mem_dispatch_setLogLevel reg o args n
      simp [loadEvents, hd]
  · intro args h
    rw [run_cli_ok h]
    constructor
    · intro h5
      have hl : loadEvents args =
          [.diagnostics, .enableVerboseHttp,
            .parseProject args.project args.cfg_pairs] := by
        simp [loadEvents, h5]
      rw [hl]
      rfl
    · intro h5
      have hd := not_mem_dispatch_verbose reg o args
      simp [loadEvents, h5, hd]

/-- A command line selecting trace-level logging. -/
def cliTrace : List String := ["--logging", "trace", "-t", "win", "proj.kbdgen"]

/-- The namespace `parse_args` produces for `cliTrace`. -/
def argsTrace : Args := { logging := 5, target := "win", project := "proj.kbdgen" }

theorem parseLoop_logging_step (a : PreArgs) (v : String) (n : Nat)
    (rest : List String) (hv : logging_type v = some n) :
    parseLoop a ("--logging" :: v :: rest) =
      parseLoop { a with logging := some n } rest := by
  simp [parseLoop, classify, hv]

theorem parse_args_cliTrace : parse_args regW cliTrace = .ok argsTrace := by
  rw [cliTrace, parse_args, parseLoop_logging_step _ _ 5 _ (by rfl)]
  simp only [parseLoop, classify, takeValues, isOptionTok, finalize, regW,
    argsTrace, logging_type]
  decide

/-- Witness: `C10_thm` on a trace-level and an info-level invocation. -/
theorem C10_witness :
    (∀ n, Event.setLogLevel n ∉ (run_cli regW oracleOk cliTrace).1) ∧
      (run_cli regW oracleOk cliTrace).1.take 3 =
        [.diagnostics, .enableVerboseHttp,
          .parseProject argsTrace.project argsTrace.cfg_pairs] ∧
      Event.enableVerboseHttp ∉ (run_cli regW oracleOk cliOk).1 := by
  obtain ⟨h1, h2⟩ := C10_thm regW oracleOk cliTrace
  obtain ⟨a, _⟩ := h2 argsTrace parse_args_cliTrace
  obtain ⟨_, h3⟩ := C10_thm regW oracleOk cliOk
  obtain ⟨_, b⟩ := h3 argsOk parse_args_cliOk
  exact ⟨h1, a rfl, b (by decide)⟩

theorem takeValues_mem (x : String) (l : List String) :
    x ∈ (takeValues l).2 → x ∈ l := by
  induction l with
  | nil => simp [takeValues]
  | cons y ys ih =>
    simp only [takeValues]
    split
    · exact fun h => h
    · exact fun h => List.mem_cons_of_mem y (ih h)

theorem classify_cfg_spec (t : String) :
    (match classify t with
     | .storeTrue f => ∀ a, (f a).cfg_pairs = a.cfg_pairs
     | .valueOpt f => ∀ a v, (f a v).cfg_pairs = a.cfg_pairs
     | .starOpt f =>
         (t = "-K" ∨ t = "--key") ∨ ∀ a vs, (f a vs).cfg_pairs = a.cfg_pairs
     | _ => True) := by
  by_cases h1 : t = "--version"
  · simp [classify, h1]
  by_cases h2 : t = "--logging"
  · simp [classify, h1, h2]
  by_cases h3 : t = "--local"
  · simp [classify, h1, h2, h3]
  by_cases h4 : t = "--legacy"
  · simp [classify, h1, h2, h3, h4]
  by_cases h5 : t = "-K" ∨ t = "--key"
  · simp [classify, h1, h2, h3, h4, h5]
  by_cases h6 : t = "-D" ∨ t = "--dry-run"
  · simp [classify, h1, h2, h3, h4, h5, h6]
  by_cases h7 : t = "-R" ∨ t = "--release"
  · simp [classify, h1, h2, h3, h4, h5, h6, h7]
  by_cases h8 : t = "-G" ∨ t = "--global"
  · simp [classify, h1, h2, h3, h4, h5, h6, h7, h8]
  by_cases h9 : t = "-r" ∨ t = "--kbd-repo"
  · simp [classify, h1, h2, h3, h4, h5, h6, h7, h8, h9]
  by_cases h10 : t = "-b" ∨ t = "--kbd-branch"
  · simp [classify, h1, h2, h3, h4, h5, h6, h7, h8, h9, h10]
  by_cases h11 : t = "--divvunspell-repo"
  · simp [classify, h1, h2, h3, h4, h5, h6, h7, h8, h9, h10, h11]
  by_cases h12 : t = "--divvunspell-branch"
  · simp [classify, h1, h2, h3, h4, h5, h6, h7, h8, h9, h10, h11, h12]
  by_cases h13 : t = "-t" ∨ t = "--target"
  · simp [classify, h1, h2, h3, h4, h5, h6, h7, h8, h9, h10, h11, h12, h13]
  by_cases h14 : t = "-o" ∨ t = "--output"
  · simp [classify, h1, h2, h3, h4, h5, h6, h7, h8, h9, h10, h11, h12, h13, h14]
  by_cases h15 : t = "-f" ∨ t = "--flag"
  · simp [classify, h1, h2, h3, h4, h5, h6, h7, h8, h9, h10, h11, h12, h13, h14, h15]
  by_cases h16 : t = "-l" ∨ t = "--layout"
  · simp [classify, h1, h2, h3, h4, h5, h6, h7, h8, h9, h10, h11, h12, h13, h14, h15, h16]
  by_cases h17 : t = "--github-username"
  · simp [classify, h1, h2, h3, h4, h5, h6, h7, h8, h9, h10, h11, h12, h13, h14, h15, h16, h17]
  by_cases h18 : t = "--github-token"
  · simp [classify, h1, h2, h3, h4, h5, h6, h7, h8, h9, h10, h11, h12, h13, h14, h15, h16, h17, h18]
  by_cases h19 : t = "-c" ∨ t = "--command"
  · simp [classify, h1, h2, h3, h4, h5, h6, h7, h8, h9, h10, h11, h12, h13, h14, h15, h16, h17, h18, h19]
  by_cases h20 : t = "--ci"
  · simp [classify, h1, h2, h3, h4, h5, h6, h7, h8, h9, h10, h11, h12, h13, h14, h15, h16, h17, h18, h19, h20]
  simp [classify, h1, h2, h3, h4, h5, h6, h7, h8, h9, h10, h11, h12, h13, h14, h15, h16, h17, h18, h19, h20]
  split <;>
    first
      | trivial
      | (rename_i heq; split at heq <;> simp_all)

theorem parseLoop_cfg_pairs : ∀ (l : List String) (a b : PreArgs),
    "-K" ∉ l → "--key" ∉ l → parseLoop a l = .ok b →
      b.cfg_pairs = a.cfg_pairs
  | [], a, b, _, _, h => by
      rw [parseLoop.eq_1] at h
      injection h with h'
      subst h'
      rfl
  | [t], a, b, h1, h2, h => by
      have hspec := classify_cfg_spec t
      rw [parseLoop.eq_3] at h
      cases hc : classify t with
      | version => simp [hc] at h
      | loggingOpt => simp [hc] at h
      | storeTrue f =>
          simp only [hc] at h hspec
          exact (parseLoop_cfg_pairs [] (f a) b (by simp) (by simp) h).trans
            (hspec a)
      | starOpt f =>
          simp only [hc] at h hspec
          rcases hspec with hk | hpres
          · rcases hk with rfl | rfl
            · exact absurd (List.mem_cons_self _ _) h1
            · exact absurd (List.mem_cons_self _ _) h2
          · exact (parseLoop_cfg_pairs [] (f a []) b (by simp) (by simp)
              h).trans (hpres a [])
      | valueOpt f => simp [hc] at h
      | badOpt => simp [hc] at h
      | positional =>
          simp only [hc] at h
          rcases hp : a.project with _ | p
          · simp only [hp] at h
            exact parseLoop_cfg_pairs [] { a with project := some t } b
              (by simp) (by simp) h
          · simp [hp] at h
  | t :: v :: rest', a, b, h1, h2, h => by
      have h1r : "-K" ∉ v :: rest' := fun hm => h1 (List.mem_cons_of_mem _ hm)
      have h2r : "--key" ∉ v :: rest' :=
        fun hm => h2 (List.mem_cons_of_mem _ hm)
      have h1s : "-K" ∉ rest' := fun hm => h1r (List.mem_cons_of_mem _ hm)
      have h2s : "--key" ∉ rest' := fun hm => h2r (List.mem_cons_of_mem _ hm)
      have hspec := classify_cfg_spec t
      rw [parseLoop.eq_2] at h
      cases hc : classify t with
      | version => simp [hc] at h
      | loggingOpt =>
          simp only [hc] at h
          rcases hv : logging_type v with _ | n
          · simp [hv] at h
          · simp only [hv] at h
            exact parseLoop_cfg_pairs rest' { a with logging := some n } b
              h1s h2s h
      | storeTrue f =>
          simp only [hc] at h hspec
          exact (parseLoop_cfg_pairs (v :: rest') (f a) b h1r h2r h).trans
            (hspec a)
      | starOpt f =>
          simp only [hc] at h hspec
          rcases hspec with hk | hpres
          · rcases hk with rfl | rfl
            · exact absurd (List.mem_cons_self _ _) h1
            · exact absurd (List.mem_cons_self _ _) h2
          · have h1t : "-K" ∉ (takeValues (v :: rest')).2 :=
              fun hm => h1r (takeValues_mem _ _ hm)
            have h2t : "--key" ∉ (takeValues (v :: rest')).2 :=
              fun hm => h2r (takeValues_mem _ _ hm)
            exact (parseLoop_cfg_pairs _ _ b h1t h2t h).trans (hpres a _)
      | valueOpt f =>
          simp only [hc] at h hspec
          exact (parseLoop_cfg_pairs rest' (f a v) b h1s h2s h).trans
            (hspec a v)
      | badOpt => simp [hc] at h
      | positional =>
          simp only [hc] at h
          rcases hp : a.project with _ | p
          · simp only [hp] at h
            exact parseLoop_cfg_pairs (v :: rest')
              { a with project := some t } b h1r h2r h
          · simp [hp] at h
termination_by l => l.length
decreasing_by
  all_goals simp_wf
  all_goals first
    | omega
    | exact Nat.lt_succ_of_le (takeValues_length_le _)

theorem finalize_cfg_pairs {reg : Registry} {a : PreArgs} {args : Args}
    (h : finalize reg a = .ok args) : args.cfg_pairs = a.cfg_pairs := by
  unfold finalize at h
  rcases ht : a.target with _ | t
  · rw [ht] at h
    simp at h
  · rw [ht] at h
    rcases hp : a.project with _ | p
    · rw [hp] at h
      simp at h
    · rw [hp] at h
      dsimp only at h
      split at h
      · injection h with h'
        subst h'
        rfl
      · simp at h

/-- C9: when no `-K` or `--key` token appears on the command line,
`cfg_pairs` stays `None` (the argparse default, the declaration having no
`default=`) and `run_cli` passes `None` — not an empty list — to
`Parser().parse`; `cfg_pairs` can be the empty list only when a `-K` or
`--key` token was given (with zero following values). -/
theorem C9_thm (reg : Registry) (cli : List String) (args : Args)
    (h : parse_args reg cli = .ok args) :
    (("-K" ∉ cli ∧ "--key" ∉ cli) → args.cfg_pairs = none) ∧
      (args.cfg_pairs = some [] → ("-K" ∈ cli ∨ "--key" ∈ cli)) ∧
      ∀ o : Oracle,
        Event.parseProject args.project args.cfg_pairs ∈ (run_cli reg o cli).1 := by
  have hmain : ("-K" ∉ cli ∧ "--key" ∉ cli) → args.cfg_pairs = none := by
    rintro ⟨h1, h2⟩
    rw [parse_args] at h
    rcases hl : parseLoop {} cli with e | pre
    · rw [hl] at h
      simp at h
    · rw [hl] at h
      have hpre := parseLoop_cfg_pairs cli {} pre h1 h2 hl
      rw [finalize_cfg_pairs h, hpre]
  refine ⟨hmain, ?_, ?_⟩
  · intro hsome
    by_contra hnot
    push_neg at hnot
    rw [hmain ⟨hnot.1, hnot.2⟩] at hsome
    cases hsome
  · intro o
    rw [run_cli_ok h]
    simp [loadEvents]

/-- Witness: `C9_thm` on the plain command line (no `-K`), checking the
loader receives `none`. -/
theorem C9_witness :
    argsOk.cfg_pairs = none ∧
      Event.parseProject argsOk.project argsOk.cfg_pairs ∈
        (run_cli regW oracleOk cliOk).1 := by
  obtain ⟨h1, _, h3⟩ := C9_thm regW cliOk argsOk parse_args_cliOk
  exact ⟨h1 (by decide), h3 oracleOk⟩


/-! The override overlay. The `Parser` consuming `cfg_pairs` lives in
`kbdgen.base`, outside `src/`, so this component is modelled from the
spec (sections 3 and 4.1). -/

mutual
/-- Modelled from the spec: a node of the OverlayTree is either a scalar
value (kept as the original string, no coercion) or a nested tree. -/
inductive Node where
  | scalar (v : String)
  | tree (cs : Entries)
/-- Modelled from the spec: an OverlayTree level — a finite mapping from
path segments to nodes, as an association list. -/
inductive Entries where
  | nil
  | cons (k : String) (n : Node) (rest : Entries)
end

/-- The keys of one tree level, in order. -/
def keysOf : Entries → List String
  | .nil => []
  | .cons k _ rest => k :: keysOf rest

/-- Lookup of a key at one tree level. -/
def lookupKey : Entries → String → Option Node
  | .nil, _ => none
  | .cons k n rest, s => if k = s then some n else lookupKey rest s

/-- Replace the binding of a key at one tree level (append when absent). -/
def setKey : Entries → String → Node → Entries
  | .nil, s, n => .cons s n .nil
  | .cons k m rest, s, n =>
    if k = s then .cons k n rest else .cons k m (setKey rest s n)

/-- Modelled from the spec (section 4.1): insert a value at a dotted path,
walking segments; a scalar (or missing) node met where a subtree is needed
is replaced by a fresh subtree, and the final segment's node is replaced by
the scalar — last-write-wins at the point of conflict. An empty path
(rejected by `splitOverride`) leaves the tree unchanged. -/
def insertNode : List String → String → Entries → Entries
  | [], _, cs => cs
  | [s], v, cs => setKey cs s (.scalar v)
  | s :: s2 :: q, v, cs =>
    match lookupKey cs s with
    | some (.tree t) => setKey cs s (.tree (insertNode (s2 :: q) v t))
    | _ => setKey cs s (.tree (insertNode (s2 :: q) v .nil))

mutual
/-- Re-flatten a node into `(path, value)` pairs. -/
def nodeFlatten : Node → List (List String × String)
  | .scalar v => [([], v)]
  | .tree cs => entriesFlatten cs
/-- Re-flatten one tree level into `(path, value)` pairs. -/
def entriesFlatten : Entries → List (List String × String)
  | .nil => []
  | .cons k n rest =>
    (nodeFlatten n).map (fun pv => (k :: pv.1, pv.2)) ++ entriesFlatten rest
end

mutual
/-- Well-formedness: no duplicate keys at any level. Trees built by
`insertNode` from the empty tree satisfy it. -/
def nodeWF : Node → Bool
  | .scalar _ => true
  | .tree cs => entriesWF cs
/-- Well-formedness of one tree level. -/
def entriesWF : Entries → Bool
  | .nil => true
  | .cons k n rest => nodeWF n && !(keysOf rest).contains k && entriesWF rest
end

/-- Split a character list at the first occurrence of `=`; `none` when no
`=` occurs. -/
def splitFirstEq : List Char → Option (List Char × List Char)
  | [] => none
  | c :: rest =>
    if c = '=' then some ([], rest)
    else
      match splitFirstEq rest with
      | some r => some (c :: r.1, r.2)
      | none => none

/-- Split a character list on every occurrence of a separator; always at
least one (possibly empty) segment. -/
def splitCharList (sep : Char) : List Char → List (List Char)
  | [] => [[]]
  | c :: rest =>
    let r := splitCharList sep rest
    if c = sep then [] :: r
    else
      match r with
      | s :: ss => (c :: s) :: ss
      | [] => [[c]]

/-- Modelled from the spec (section 4.1): split one raw override on the
first `=`, split the path on `.`; a missing `=` or an empty path segment is
a `MalformedOverrideError` (`none`). -/
def splitOverride (s : String) : Option (List String × String) :=
  match splitFirstEq s.data with
  | none => none
  | some pv =>
    let path := (splitCharList '.' pv.1).map String.mk
    if path.contains "" then none
    else some (path, String.mk pv.2)

/-- Split every raw override, failing on the first malformed one. -/
def parseOverridePairs : List String → Option (List (List String × String))
  | [] => some []
  | s :: rest =>
    match splitOverride s, parseOverridePairs rest with
    | some w, some ws => some (w :: ws)
    | _, _ => none

/-- Insert the split overrides in command-line order, starting from the
empty tree. -/
def applyOverrides (ws : List (List String × String)) : Entries :=
  ws.foldl (fun cs w => insertNode w.1 w.2 cs) .nil

/-- Modelled from the spec (section 4.1): `parse_overrides` — the Override
Parser: split each `path=value` entry and build the OverlayTree. -/
def parse_overrides (raw : List String) : Option Entries :=
  (parseOverridePairs raw).map applyOverrides

/-- Whether `p` is a (non-strict) prefix of `q`, segmentwise. -/
def isPre : List String → List String → Bool
  | [], _ => true
  | _ :: _, [] => false
  | a :: p, b :: q => a = b && isPre p q

/-- Two paths conflict when either is a prefix of the other (equality
included): writing one destroys the other. -/
def pathConflicts (p q : List String) : Bool := isPre p q || isPre q p

/-- Scanning the written overrides from the last one backwards: the value a
path holds after all writes — its own last write, unless a later write to a
conflicting path destroyed it. -/
def lastValueRev : List (List String × String) → List String → Option String
  | [], _ => none
  | (q, u) :: earlier, p =>
    if q = p then some u
    else if pathConflicts q p then none
    else lastValueRev earlier p

/-- Structural induction for `Entries` alone (the mutual recursor has two
motives; properties here never descend into `Node`). -/
@[induction_eliminator]
theorem Entries.inductionOn {motive : Entries → Prop} (cs : Entries)
    (nil : motive .nil)
    (cons : ∀ k n rest, motive rest → motive (.cons k n rest)) :
    motive cs :=
  match cs with
  | .nil => nil
  | .cons k n rest => cons k n rest (Entries.inductionOn rest nil cons)

/-- Whether a path starts with the given segment. -/
def headKey (p : List String) (k : String) : Bool :=
  match p with
  | [] => false
  | x :: _ => x = k

theorem isPre_refl (p : List String) : isPre p p = true := by
  induction p with
  | nil => rfl
  | cons a p ih => simp [isPre, ih]

theorem pathConflicts_self (p : List String) : pathConflicts p p = true := by
  simp [pathConflicts, isPre_refl]

theorem pathConflicts_comm (p q : List String) :
    pathConflicts p q = pathConflicts q p := by
  simp [pathConflicts, Bool.or_comm]

theorem pathConflicts_nil_right (p : List String) :
    pathConflicts p [] = true := by
  cases p <;> simp [pathConflicts, isPre]

theorem pathConflicts_cons (a b : String) (p q : List String) :
    pathConflicts (a :: p) (b :: q) =
      (decide (a = b) && pathConflicts p q) := by
  by_cases hab : a = b
  · subst hab
    simp [pathConflicts, isPre]
  · have hba : ¬b = a := fun h => hab h.symm
    simp [pathConflicts, isPre, hab, hba]

theorem flattenMem_ne_nil {cs : Entries} {p : List String} {v : String}
    (h : (p, v) ∈ entriesFlatten cs) : p ≠ [] := by
  induction cs with
  | nil => simp [entriesFlatten] at h
  | cons k n rest ih =>
    simp only [entriesFlatten, List.mem_append, List.mem_map] at h
    rcases h with ⟨pv, _, hpv⟩ | h
    · intro hp
      rw [hp] at hpv
      cases hpv
    · exact ih h

theorem flattenMem_key {cs : Entries} {s : String} {q : List String}
    {v : String} (h : (s :: q, v) ∈ entriesFlatten cs) : s ∈ keysOf cs := by
  induction cs with
  | nil => simp [entriesFlatten] at h
  | cons k n rest ih =>
    simp only [entriesFlatten, List.mem_append, List.mem_map] at h
    rcases h with ⟨pv, _, hpv⟩ | h
    · simp only [keysOf, List.mem_cons]
      left
      injection hpv with h1 h2
      injection h1 with h1
      exact h1.symm
    · exact List.mem_cons_of_mem _ (ih h)

theorem lookup_none_of_not_mem {cs : Entries} {s : String}
    (h : s ∉ keysOf cs) : lookupKey cs s = none := by
  induction cs with
  | nil => rfl
  | cons k n rest ih =>
    simp only [keysOf, List.mem_cons, not_or] at h
    show (if k = s then some n else lookupKey rest s) = none
    rw [if_neg (fun hk : k = s => h.1 hk.symm)]
    exact ih h.2

theorem mem_of_lookup_some {cs : Entries} {s : String} {n : Node}
    (h : lookupKey cs s = some n) : s ∈ keysOf cs := by
  by_contra hs
  rw [lookup_none_of_not_mem hs] at h
  cases h

theorem lookup_wf {cs : Entries} {s : String} {n : Node}
    (hwf : entriesWF cs = true) (h : lookupKey cs s = some n) :
    nodeWF n = true := by
  induction cs with
  | nil => cases h
  | cons k m rest ih =>
    simp only [entriesWF, Bool.and_eq_true] at hwf
    simp only [lookupKey] at h
    split at h
    · injection h with h
      rw [← h]
      exact hwf.1.1
    · exact ih hwf.2 h

theorem flattenMem_lookup {cs : Entries} {s : String} {n : Node}
    (hwf : entriesWF cs = true) (hl : lookupKey cs s = some n)
    {q : List String} {v : String} :
    (s :: q, v) ∈ entriesFlatten cs ↔ (q, v) ∈ nodeFlatten n := by
  induction cs with
  | nil => cases hl
  | cons k m rest ih =>
    simp only [entriesWF, Bool.and_eq_true] at hwf
    simp only [lookupKey] at hl
    simp only [entriesFlatten, List.mem_append, List.mem_map]
    split at hl
    · rename_i hk
      subst hk
      injection hl with hl
      subst hl
      constructor
      · rintro (⟨⟨q', v'⟩, hq, he⟩ | hrest)
        · injection he with h1 h2
          injection h1 with _ h1
          subst h1
          subst h2
          exact hq
        · exact absurd (flattenMem_key hrest)
            (by simpa using hwf.1.2)
      · intro hq
        exact .inl ⟨(q, v), hq, rfl⟩
    · rename_i hk
      rw [ih hwf.2 hl]
      constructor
      · rintro (⟨⟨q', v'⟩, hq, he⟩ | hrest)
        · injection he with h1 h2
          injection h1 with h1
          exact absurd h1 hk
        · exact hrest
      · exact fun hq => .inr hq

theorem keysOf_setKey_mem (cs : Entries) (k : String) (n : Node)
    (s : String) : s ∈ keysOf (setKey cs k n) ↔ s ∈ keysOf cs ∨ s = k := by
  induction cs with
  | nil => simp [setKey, keysOf]
  | cons k' m rest ih =>
    simp only [setKey]
    split
    · rename_i hk
      subst hk
      simp only [keysOf, List.mem_cons]
      tauto
    · rename_i hk
      simp only [keysOf, List.mem_cons, ih]
      tauto

theorem entriesWF_setKey {cs : Entries} {k : String} {n : Node}
    (hwf : entriesWF cs = true) (hn : nodeWF n = true) :
    entriesWF (setKey cs k n) = true := by
  induction cs with
  | nil => simp [setKey, entriesWF, keysOf, hn]
  | cons k' m rest ih =>
    simp only [entriesWF, Bool.and_eq_true] at hwf
    simp only [setKey]
    split
    · rename_i hk
      subst hk
      simp only [entriesWF, Bool.and_eq_true]
      exact ⟨⟨hn, hwf.1.2⟩, hwf.2⟩
    · rename_i hk
      simp only [entriesWF, Bool.and_eq_true]
      refine ⟨⟨hwf.1.1, ?_⟩, ih hwf.2⟩
      have hk' : k' ∉ keysOf rest := by simpa using hwf.1.2
      have hnot : k' ∉ keysOf (setKey rest k n) := by
        intro hc
        rcases (keysOf_setKey_mem rest k n k').mp hc with h | h
        · exact hk' h
        · exact hk h
      simpa using hnot

theorem setKey_flatten_mem {cs : Entries} (hwf : entriesWF cs = true)
    (k : String) (n : Node) (p : List String) (v : String) :
    (p, v) ∈ entriesFlatten (setKey cs k n) ↔
      (∃ q, p = k :: q ∧ (q, v) ∈ nodeFlatten n) ∨
        ((p, v) ∈ entriesFlatten cs ∧ headKey p k = false) := by
  induction cs with
  | nil =>
    simp only [setKey, entriesFlatten, List.mem_append, List.mem_map,
      List.not_mem_nil, false_and, or_false, and_false]
    constructor
    · rintro ⟨⟨q, v'⟩, hq, he⟩
      injection he with h1 h2
      subst h2
      exact ⟨q, h1.symm, hq⟩
    · rintro ⟨q, rfl, hq⟩
      exact ⟨(q, v), hq, rfl⟩
  | cons k' m rest ih =>
    simp only [entriesWF, Bool.and_eq_true] at hwf
    simp only [setKey]
    split
    · rename_i hk
      subst hk
      simp only [entriesFlatten, List.mem_append, List.mem_map]
      constructor
      · rintro (⟨⟨q, v'⟩, hq, he⟩ | hrest)
        · injection he with h1 h2
          subst h2
          exact .inl ⟨q, h1.symm, hq⟩
        · refine .inr ⟨.inr hrest, ?_⟩
          rcases hp : p with _ | ⟨s, q⟩
          · exact absurd (hp ▸ flattenMem_ne_nil hrest) (by simp)
          · subst hp
            have hs := flattenMem_key hrest
            have hkr : k' ∉ keysOf rest := by simpa using hwf.1.2
            simp only [headKey, decide_eq_false_iff_not]
            exact fun hsk => hkr (hsk ▸ hs)
      · rintro (⟨q, rfl, hq⟩ | ⟨hin | hin, hhead⟩)
        · exact .inl ⟨(q, v), hq, rfl⟩
        · rcases hin with ⟨⟨q, v'⟩, hq, he⟩
          injection he with h1 h2
          rw [← h1] at hhead
          simp [headKey] at hhead
        · exact .inr hin
    · rename_i hk
      simp only [entriesFlatten, List.mem_append, List.mem_map, ih hwf.2]
      constructor
      · rintro (⟨⟨q, v'⟩, hq, he⟩ | ⟨q, rfl, hq⟩ | ⟨hin, hhead⟩)
        · injection he with h1 h2
          refine .inr ⟨.inl ⟨(q, v'), hq, by rw [h1, h2]⟩, ?_⟩
          rw [← h1]
          simp only [headKey, decide_eq_false_iff_not]
          exact hk
        · exact .inl ⟨q, rfl, hq⟩
        · exact .inr ⟨.inr hin, hhead⟩
      · rintro (⟨q, rfl, hq⟩ | ⟨hin | hin, hhead⟩)
        · exact .inr (.inl ⟨q, rfl, hq⟩)
        · exact .inl hin
        · exact .inr (.inr ⟨hin, hhead⟩)

theorem insertNode_wf {q : List String} {v : String} {cs : Entries}
    (hwf : entriesWF cs = true) :
    entriesWF (insertNode q v cs) = true := by
  induction q generalizing cs with
  | nil => simpa [insertNode] using hwf
  | cons s q ih =>
    rcases q with _ | ⟨s2, q'⟩
    · exact entriesWF_setKey hwf rfl
    · show entriesWF
        (match lookupKey cs s with
          | some (.tree t) => setKey cs s (.tree (insertNode (s2 :: q') v t))
          | _ => setKey cs s (.tree (insertNode (s2 :: q') v .nil))) = true
      split
      · rename_i t hl
        exact entriesWF_setKey hwf (ih (lookup_wf hwf hl))
      · exact entriesWF_setKey hwf (ih rfl)

theorem insert_nil_flatten {q : List String} (hq : q ≠ []) (v : String) :
    entriesFlatten (insertNode q v .nil) = [(q, v)] := by
  induction q with
  | nil => exact absurd rfl hq
  | cons s q ih =>
    rcases q with _ | ⟨s2, q'⟩
    · rfl
    · show entriesFlatten
        (match lookupKey .nil s with
          | some (.tree t) => setKey .nil s (.tree (insertNode (s2 :: q') v t))
          | _ => setKey .nil s (.tree (insertNode (s2 :: q') v .nil))) = _
      have : lookupKey Entries.nil s = none := rfl
      rw [this]
      show entriesFlatten
        (.cons s (.tree (insertNode (s2 :: q') v .nil)) .nil) = _
      simp only [entriesFlatten, nodeFlatten, ih (by simp), List.map,
        List.append_nil]

theorem pathConflicts_nil_left (q : List String) :
    pathConflicts [] q = true := by
  simp [pathConflicts, isPre]

theorem lookup_some_of_mem {cs : Entries} {s : String}
    (h : s ∈ keysOf cs) : ∃ n, lookupKey cs s = some n := by
  induction cs with
  | nil => simp [keysOf] at h
  | cons k m rest ih =>
    show ∃ n, (if k = s then some m else lookupKey rest s) = some n
    by_cases hk : k = s
    · exact ⟨m, if_pos hk⟩
    · rw [if_neg hk]
      refine ih ?_
      rcases (by simpa [keysOf] using h : s = k ∨ s ∈ keysOf rest) with rfl | h'
      · exact absurd rfl hk
      · exact h'

theorem insert_flatten_mem (q : List String) : ∀ (u : String) (cs : Entries),
    entriesWF cs = true → q ≠ [] → ∀ (p : List String) (v : String),
    ((p, v) ∈ entriesFlatten (insertNode q u cs) ↔
      (p = q ∧ v = u) ∨
        ((p, v) ∈ entriesFlatten cs ∧ pathConflicts p q = false)) := by
  induction q with
  | nil => exact fun u cs hwf hq p v => absurd rfl hq
  | cons s q ih =>
    intro u cs hwf _ p v
    rcases q with _ | ⟨s2, q'⟩
    · rw [show insertNode [s] u cs = setKey cs s (.scalar u) from rfl,
        setKey_flatten_mem hwf]
      constructor
      · rintro (⟨r, rfl, hr⟩ | ⟨hin, hhead⟩)
        · simp only [nodeFlatten, List.mem_singleton, Prod.mk.injEq] at hr
          exact .inl ⟨by rw [hr.1], hr.2⟩
        · refine .inr ⟨hin, ?_⟩
          rcases hp : p with _ | ⟨a, p'⟩
          · exact absurd (hp ▸ flattenMem_ne_nil hin) (by simp)
          · subst hp
            rw [pathConflicts_cons]
            simp only [headKey, decide_eq_false_iff_not] at hhead
            simp [hhead]
      · rintro (⟨rfl, rfl⟩ | ⟨hin, hconf⟩)
        · exact .inl ⟨[], rfl, by simp [nodeFlatten]⟩
        · refine .inr ⟨hin, ?_⟩
          rcases hp : p with _ | ⟨a, p'⟩
          · exact absurd (hp ▸ flattenMem_ne_nil hin) (by simp)
          · subst hp
            rw [pathConflicts_cons] at hconf
            simp only [headKey, decide_eq_false_iff_not]
            intro ha
            rw [ha] at hconf
            simp [pathConflicts_nil_right] at hconf
    · show (p, v) ∈ entriesFlatten
        (match lookupKey cs s with
          | some (.tree t) => setKey cs s (.tree (insertNode (s2 :: q') u t))
          | _ => setKey cs s (.tree (insertNode (s2 :: q') u .nil))) ↔ _
      have hq' : s2 :: q' ≠ [] := by simp
      cases hl : lookupKey cs s with
      | some n =>
        cases n with
        | tree t =>
          rw [setKey_flatten_mem hwf]
          have hwt : entriesWF t = true := lookup_wf hwf hl
          constructor
          · rintro (⟨r, rfl, hr⟩ | ⟨hin, hhead⟩)
            · rw [show nodeFlatten (.tree (insertNode (s2 :: q') u t)) =
                  entriesFlatten (insertNode (s2 :: q') u t) from rfl,
                ih u t hwt hq' r v] at hr
              rcases hr with ⟨rfl, rfl⟩ | ⟨hrt, hcon⟩
              · exact .inl ⟨rfl, rfl⟩
              · refine .inr ⟨(flattenMem_lookup hwf hl).mpr hrt, ?_⟩
                rw [pathConflicts_cons]
                simp [hcon]
            · refine .inr ⟨hin, ?_⟩
              rcases hp : p with _ | ⟨a, p'⟩
              · exact absurd (hp ▸ flattenMem_ne_nil hin) (by simp)
              · subst hp
                rw [pathConflicts_cons]
                simp only [headKey, decide_eq_false_iff_not] at hhead
                simp [hhead]
          · rintro (⟨rfl, hvu⟩ | ⟨hin, hconf⟩)
            · subst hvu
              refine .inl ⟨s2 :: q', rfl, ?_⟩
              rw [show nodeFlatten (.tree (insertNode (s2 :: q') v t)) =
                  entriesFlatten (insertNode (s2 :: q') v t) from rfl,
                ih v t hwt hq' (s2 :: q') v]
              exact .inl ⟨rfl, rfl⟩
            · rcases hp : p with _ | ⟨a, p'⟩
              · exact absurd (hp ▸ flattenMem_ne_nil hin) (by simp)
              · subst hp
                rw [pathConflicts_cons] at hconf
                by_cases ha : a = s
                · subst ha
                  refine .inl ⟨p', rfl, ?_⟩
                  rw [show nodeFlatten (.tree (insertNode (s2 :: q') u t)) =
                      entriesFlatten (insertNode (s2 :: q') u t) from rfl,
                    ih u t hwt hq' p' v]
                  refine .inr ⟨(flattenMem_lookup hwf hl).mp hin, ?_⟩
                  simpa using hconf
                · refine .inr ⟨hin, ?_⟩
                  simp [headKey, ha]
        | scalar w =>
          rw [setKey_flatten_mem hwf]
          constructor
          · rintro (⟨r, rfl, hr⟩ | ⟨hin, hhead⟩)
            · rw [show nodeFlatten (.tree (insertNode (s2 :: q') u .nil)) =
                  entriesFlatten (insertNode (s2 :: q') u .nil) from rfl,
                insert_nil_flatten hq'] at hr
              simp only [List.mem_singleton, Prod.mk.injEq] at hr
              exact .inl ⟨by rw [hr.1], hr.2⟩
            · refine .inr ⟨hin, ?_⟩
              rcases hp : p with _ | ⟨a, p'⟩
              · exact absurd (hp ▸ flattenMem_ne_nil hin) (by simp)
              · subst hp
                rw [pathConflicts_cons]
                simp only [headKey, decide_eq_false_iff_not] at hhead
                simp [hhead]
          · rintro (⟨rfl, hvu⟩ | ⟨hin, hconf⟩)
            · subst hvu
              refine .inl ⟨s2 :: q', rfl, ?_⟩
              rw [show nodeFlatten (.tree (insertNode (s2 :: q') v .nil)) =
                  entriesFlatten (insertNode (s2 :: q') v .nil) from rfl,
                insert_nil_flatten hq']
              simp
            · rcases hp : p with _ | ⟨a, p'⟩
              · exact absurd (hp ▸ flattenMem_ne_nil hin) (by simp)
              · subst hp
                rw [pathConflicts_cons] at hconf
                by_cases ha : a = s
                · subst ha
                  have hsc := (flattenMem_lookup hwf hl).mp hin
                  simp only [nodeFlatten, List.mem_singleton,
                    Prod.mk.injEq] at hsc
                  rw [hsc.1] at hconf
                  simp [pathConflicts_nil_left] at hconf
                · refine .inr ⟨hin, ?_⟩
                  simp [headKey, ha]
      | none =>
        rw [setKey_flatten_mem hwf]
        constructor
        · rintro (⟨r, rfl, hr⟩ | ⟨hin, hhead⟩)
          · rw [show nodeFlatten (.tree (insertNode (s2 :: q') u .nil)) =
                entriesFlatten (insertNode (s2 :: q') u .nil) from rfl,
              insert_nil_flatten hq'] at hr
            simp only [List.mem_singleton, Prod.mk.injEq] at hr
            exact .inl ⟨by rw [hr.1], hr.2⟩
          · refine .inr ⟨hin, ?_⟩
            rcases hp : p with _ | ⟨a, p'⟩
            · exact absurd (hp ▸ flattenMem_ne_nil hin) (by simp)
            · subst hp
              rw [pathConflicts_cons]
              simp only [headKey, decide_eq_false_iff_not] at hhead
              simp [hhead]
        · rintro (⟨rfl, hvu⟩ | ⟨hin, hconf⟩)
          · subst hvu
            refine .inl ⟨s2 :: q', rfl, ?_⟩
            rw [show nodeFlatten (.tree (insertNode (s2 :: q') v .nil)) =
                entriesFlatten (insertNode (s2 :: q') v .nil) from rfl,
              insert_nil_flatten hq']
            simp
          · rcases hp : p with _ | ⟨a, p'⟩
            · exact absurd (hp ▸ flattenMem_ne_nil hin) (by simp)
            · subst hp
              by_cases ha : a = s
              · subst ha
                obtain ⟨n, hn⟩ := lookup_some_of_mem (flattenMem_key hin)
                rw [hl] at hn
                cases hn
              · refine .inr ⟨hin, ?_⟩
                simp [headKey, ha]

theorem applyOverrides_wf (ws : List (List String × String)) :
    entriesWF (applyOverrides ws) = true := by
  suffices h : ∀ cs, entriesWF cs = true →
      entriesWF (ws.foldl (fun cs w => insertNode w.1 w.2 cs) cs) = true from
    h .nil rfl
  induction ws with
  | nil => exact fun cs h => h
  | cons w ws ih =>
    intro cs hwf
    exact ih _ (insertNode_wf hwf)

theorem applyOverrides_append (ws : List (List String × String))
    (w : List String × String) :
    applyOverrides (ws ++ [w]) = insertNode w.1 w.2 (applyOverrides ws) := by
  simp [applyOverrides, List.foldl_append]

theorem applyOverrides_flatten (ws : List (List String × String))
    (hw : ∀ w ∈ ws, w.1 ≠ []) (p : List String) (v : String) :
    ((p, v) ∈ entriesFlatten (applyOverrides ws) ↔
      lastValueRev ws.reverse p = some v) := by
  induction ws using List.reverseRecOn with
  | nil => simp [applyOverrides, entriesFlatten, lastValueRev]
  | append_singleton ws w ih =>
    obtain ⟨q, u⟩ := w
    rw [applyOverrides_append]
    have hrev : (ws ++ [(q, u)]).reverse = (q, u) :: ws.reverse := by simp
    rw [hrev]
    have hw1 : (q, u).1 ≠ [] := hw (q, u) (by simp)
    have hws : ∀ w' ∈ ws, w'.1 ≠ [] := fun w' hm => hw w' (by simp [hm])
    rw [insert_flatten_mem (q, u).1 (q, u).2 (applyOverrides ws)
      (applyOverrides_wf ws) hw1 p v]
    simp only [lastValueRev]
    by_cases hqp : q = p
    · subst hqp
      rw [if_pos rfl]
      constructor
      · rintro (⟨_, rfl⟩ | ⟨_, hconf⟩)
        · rfl
        · rw [pathConflicts_self] at hconf
          cases hconf
      · intro hv
        injection hv with hv
        exact .inl ⟨rfl, hv.symm⟩
    · rw [if_neg hqp]
      by_cases hconf : pathConflicts q p = true
      · rw [if_pos hconf]
        constructor
        · rintro (⟨rfl, _⟩ | ⟨_, hc⟩)
          · exact absurd rfl hqp
          · rw [pathConflicts_comm, hconf] at hc
            cases hc
        · intro hv
          cases hv
      · rw [if_neg hconf]
        rw [← ih hws]
        constructor
        · rintro (⟨rfl, _⟩ | ⟨hin, _⟩)
          · exact absurd rfl hqp
          · exact hin
        · intro hin
          refine .inr ⟨hin, ?_⟩
          rw [pathConflicts_comm]
          simpa using hconf

theorem splitCharList_ne_nil (sep : Char) (l : List Char) :
    splitCharList sep l ≠ [] := by
  induction l with
  | nil => simp [splitCharList]
  | cons c rest ih =>
    simp only [splitCharList]
    split
    · simp
    · split
      · simp
      · simp

theorem splitOverride_path_ne_nil {s : String} {w : List String × String}
    (h : splitOverride s = some w) : w.1 ≠ [] := by
  unfold splitOverride at h
  split at h
  · cases h
  · rename_i pv _
    dsimp only at h
    split at h
    · cases h
    · injection h with h
      rw [← h]
      intro hnil
      have := splitCharList_ne_nil '.' pv.1
      rcases he : splitCharList '.' pv.1 with _ | ⟨x, xs⟩
      · exact this he
      · rw [he] at hnil
        cases hnil

theorem parseOverridePairs_paths {raw : List String}
    {ws : List (List String × String)}
    (h : parseOverridePairs raw = some ws) : ∀ w ∈ ws, w.1 ≠ [] := by
  induction raw generalizing ws with
  | nil =>
    injection h with h
    rw [← h]
    simp
  | cons s rest ih =>
    unfold parseOverridePairs at h
    split at h
    · rename_i w' ws' hs hrest
      injection h with h
      rw [← h]
      intro w hm
      rcases List.mem_cons.mp hm with rfl | hm'
      · exact splitOverride_path_ne_nil hs
      · exact ih hrest w hm'
    · cases h

/-- C8: for every accepted list of raw override strings, re-flattening the
OverlayTree built by the Override Parser yields exactly the last value
written for each surviving path: `(p, v)` appears in the flattening iff,
scanning the parsed writes from the last one backwards, the most recent
write whose path conflicts with `p` (equal, a prefix, or an extension) is a
write of `v` to exactly `p`. In particular, when a path carries both a
scalar assignment and a deeper nested assignment, the later write on the
command line wins. -/
theorem C8_thm (raw : List String) (ws : List (List String × String))
    (cs : Entries) (hws : parseOverridePairs raw = some ws)
    (hcs : parse_overrides raw = some cs) (p : List String) (v : String) :
    ((p, v) ∈ entriesFlatten cs ↔ lastValueRev ws.reverse p = some v) := by
  have hcw : cs = applyOverrides ws := by
    rw [parse_overrides, hws] at hcs
    injection hcs with h
    exact h.symm
  subst hcw
  exact applyOverrides_flatten ws (parseOverridePairs_paths hws) p v

/-- A concrete override list: `a` is first assigned a scalar, then extended
at `a.b` (twice), with an unrelated `c` in between. -/
def rawW : List String := ["a=1", "a.b=2", "c=3", "a.b=4"]

/-- The split form of `rawW`. -/
def wsW : List (List String × String) :=
  [(["a"], "1"), (["a", "b"], "2"), (["c"], "3"), (["a", "b"], "4")]

/-- The OverlayTree `rawW` builds. -/
def csW : Entries :=
  .cons "a" (.tree (.cons "b" (.scalar "4") .nil))
    (.cons "c" (.scalar "3") .nil)

/-- Witness: `C8_thm` on `rawW` — the flattening holds the last write
`a.b=4` and has lost the earlier scalar write `a=1`, destroyed by the later
nested writes. -/
theorem C8_witness :
    (["a", "b"], "4") ∈ entriesFlatten csW ∧
      (["a"], "1") ∉ entriesFlatten csW := by
  have h1 := C8_thm rawW wsW csW rfl rfl ["a", "b"] "4"
  have h2 := C8_thm rawW wsW csW rfl rfl ["a"] "1"
  exact ⟨h1.mpr (by decide), fun hm => absurd (h2.mp hm) (by decide)⟩

end Kbdgen
